import Mathlib

/-!
Verification of the 2D-shooter core (quad batch renderer, gravity collision
resolver, scene tick) against its specification.

The source's `f32` coordinates are modelled as exact rationals `ℚ`; all the
arithmetic the program performs on the values exercised here (small integral
pixel amounts) is exact in `f32` as well.  `usize` counters are `ℕ`, the
`u16` index elements keep their `try_into().unwrap()` range check as an
explicit guard.
-/

namespace Shooter

/-- `cgmath::Point2<f32>`, modelled with exact rational coordinates. -/
structure Point2 where
  x : ℚ
  y : ℚ
deriving DecidableEq, Repr

/-- `cgmath::Point3<f32>` (colors). -/
structure Point3 where
  x : ℚ
  y : ℚ
  z : ℚ
deriving DecidableEq, Repr

/-- `physics.rs::check_player_gravity_collission`: given the proposed player
position, the block position, the global quad size and the block's extent in
cells, return the corrected resting position when the AABB test fires. -/
def check_player_gravity_collission (player_pos : Point2) (block_pos : Point2)
    (quad_size : ℚ) (block_length : ℕ × ℕ) : Option Point2 :=
  if player_pos.x + quad_size ≥ block_pos.x
      ∧ player_pos.x < block_pos.x + quad_size * (block_length.1 : ℚ)
      ∧ player_pos.y + quad_size > block_pos.y
      ∧ player_pos.y ≤ block_pos.y + quad_size * (block_length.2 : ℚ) then
    some ⟨player_pos.x, block_pos.y + quad_size * (block_length.2 : ℚ)⟩
  else
    none

/-- `renderer.rs::Vertex` (the two GPU attributes: position, color). -/
structure Vertex where
  position : Point2
  color : Point3
deriving DecidableEq, Repr

/-- `renderer.rs::QuadInfo`: the per-quad record (stores position and color
only — the source keeps no extent in the record). -/
structure QuadInfo where
  pos : Point2
  color : Point3
deriving DecidableEq, Repr

/-- `renderer.rs::Renderer`, minus the GPU pipeline handle (boilerplate the
spec puts out of scope).  `indices` holds the `u16` element values as
naturals; every push keeps the `try_into().unwrap()` range check. -/
structure Renderer where
  quads : List QuadInfo
  quad_size : ℚ
  current_quad_index : ℕ
  vertices : List Vertex
  indices : List ℕ
deriving DecidableEq, Repr

/-- The state `Renderer::new` leaves the batch in. -/
def Renderer.new (size : ℚ) : Renderer :=
  { quads := [], quad_size := size, vertices := [], indices := [],
    current_quad_index := 0 }

/-- The four corner vertices `{origin, +w, +h, +w+h}` in the source's fixed
order, as pushed/written by `create_quad`, `create_block`,
`update_quad_data` and `change_quad_data`. -/
def cornerVertices (pos : Point2) (w h : ℚ) (color : Point3) : List Vertex :=
  [⟨pos, color⟩,
   ⟨⟨pos.x + w, pos.y⟩, color⟩,
   ⟨⟨pos.x, pos.y + h⟩, color⟩,
   ⟨⟨pos.x + w, pos.y + h⟩, color⟩]

/-- The six index elements `{0,1,2, 2,1,3}` offset by `4*index`, as pushed
by `create_quad` and `create_block`. -/
def sextet (index : ℕ) : List ℕ :=
  [4 * index, 4 * index + 1, 4 * index + 2,
   4 * index + 2, 4 * index + 1, 4 * index + 3]

/-- `renderer.rs::create_quad`.  The six `(…).try_into().unwrap()` calls
convert to `u16`; they all succeed exactly when `4*index + 3 < 2^16`, so the
model guards the whole push by that bound and returns `none` (the panic)
otherwise. -/
def Renderer.create_quad (r : Renderer) (position : Point2) (color : Point3) :
    Option (Renderer × ℕ) :=
  let index := r.current_quad_index
  if 4 * index + 3 < 65536 then
    some ({ r with
      quads := r.quads ++ [⟨position, color⟩],
      current_quad_index := index + 1,
      vertices := r.vertices
        ++ cornerVertices position r.quad_size r.quad_size color,
      indices := r.indices ++ sextet index }, index)
  else
    none

/-- `renderer.rs::create_block`: like `create_quad` but the corner offsets
are scaled by the block's length in cells per axis. -/
def Renderer.create_block (r : Renderer) (position : Point2)
    (length : ℕ × ℕ) (color : Point3) : Option (Renderer × ℕ) :=
  let index := r.current_quad_index
  if 4 * index + 3 < 65536 then
    some ({ r with
      quads := r.quads ++ [⟨position, color⟩],
      current_quad_index := index + 1,
      vertices := r.vertices
        ++ cornerVertices position (r.quad_size * (length.1 : ℚ))
            (r.quad_size * (length.2 : ℚ)) color,
      indices := r.indices ++ sextet index }, index)
  else
    none

/-- The in-place rewrite of slot `index`'s four vertices performed by
`update_quad_data` and `change_quad_data` (four indexed assignments). -/
def writeCorners (v : List Vertex) (index : ℕ) (pos : Point2) (s : ℚ)
    (c : Point3) : List Vertex :=
  ((((v.set (4 * index) ⟨pos, c⟩).set
      (4 * index + 1) ⟨⟨pos.x + s, pos.y⟩, c⟩).set
      (4 * index + 2) ⟨⟨pos.x, pos.y + s⟩, c⟩).set
      (4 * index + 3) ⟨⟨pos.x + s, pos.y + s⟩, c⟩)

/-- `renderer.rs::update_quad_data` (the spec's `translate`): reads the
quad's current position, adds the delta, rewrites its four vertices with the
global `quad_size`, stores the new position.  `self.quads[index]` and the
four `self.vertices[4*index+k]` assignments panic out of range: modelled as
`none`. -/
def Renderer.update_quad_data (r : Renderer) (index : ℕ)
    (delta_position : Point2) : Option Renderer :=
  match r.quads.get? index with
  | none => none
  | some q =>
    let new_quad_pos : Point2 :=
      ⟨q.pos.x + delta_position.x, q.pos.y + delta_position.y⟩
    if 4 * index + 3 < r.vertices.length then
      some { r with
        vertices := writeCorners r.vertices index new_quad_pos r.quad_size
          q.color,
        quads := r.quads.set index ⟨new_quad_pos, q.color⟩ }
    else
      none

/-- `renderer.rs::change_quad_data` (the spec's `set_position`): rewrites the
four vertices from the absolute position and stores it. -/
def Renderer.change_quad_data (r : Renderer) (index : ℕ)
    (new_position : Point2) : Option Renderer :=
  match r.quads.get? index with
  | none => none
  | some q =>
    if 4 * index + 3 < r.vertices.length then
      some { r with
        vertices := writeCorners r.vertices index new_position r.quad_size
          q.color,
        quads := r.quads.set index ⟨new_position, q.color⟩ }
    else
      none

/-- `renderer.rs::collect_buffers` (the spec's `export`), minus the GPU
upload: the exported data is the two arrays plus
`num_of_indices = (6 * current_quad_index).try_into().unwrap()` into `u32`,
the conversion kept as a guard. -/
def Renderer.collect_buffers (r : Renderer) :
    Option (List Vertex × List ℕ × ℕ) :=
  if 6 * r.current_quad_index < 4294967296 then
    some (r.vertices, r.indices, 6 * r.current_quad_index)
  else
    none

/-- `n` successive `create_quad` calls (all at the origin, green), used to
count how many quads a batch accepts. -/
def createN (r : Renderer) : ℕ → Option Renderer
  | 0 => some r
  | n + 1 =>
    (r.create_quad ⟨0, 0⟩ ⟨0, 1, 0⟩).bind fun x => createN x.1 n

/-- The four vertices `create_quad` derives for a unit-extent quad record:
the `cell_size × cell_size` square at its position in its color. -/
def cornersOf (s : ℚ) (q : QuadInfo) : List Vertex :=
  cornerVertices q.pos s s q.color

/-- The batch state after creating the scene's player quad (slot 0) and its
`6 × 1` block (slot 1) — a concrete test state. -/
def rPB : Renderer :=
  { quads := [⟨⟨0, 0⟩, ⟨0, 1, 0⟩⟩, ⟨⟨200, 230⟩, ⟨1, 1, 1⟩⟩],
    quad_size := 50,
    current_quad_index := 2,
    vertices := cornerVertices ⟨0, 0⟩ 50 50 ⟨0, 1, 0⟩
      ++ cornerVertices ⟨200, 230⟩ (50 * ((6 : ℕ) : ℚ))
          (50 * ((1 : ℕ) : ℚ)) ⟨1, 1, 1⟩,
    indices := sextet 0 ++ sextet 1 }

/-- `rPB` after translating slot 1 by `(5, 0)`. -/
def rPB2 : Renderer :=
  { quads := [⟨⟨0, 0⟩, ⟨0, 1, 0⟩⟩, ⟨⟨200 + 5, 230 + 0⟩, ⟨1, 1, 1⟩⟩],
    quad_size := 50,
    current_quad_index := 2,
    vertices := writeCorners
      (cornerVertices ⟨0, 0⟩ 50 50 ⟨0, 1, 0⟩
        ++ cornerVertices ⟨200, 230⟩ (50 * ((6 : ℕ) : ℚ))
            (50 * ((1 : ℕ) : ℚ)) ⟨1, 1, 1⟩)
      1 ⟨200 + 5, 230 + 0⟩ 50 ⟨1, 1, 1⟩,
    indices := sextet 0 ++ sextet 1 }

/-- The batch state after creating a `2 × 1` block and then translating it
by `(0, 0)` — a concrete test state exhibiting what `update_quad_data` does
to a block's vertices. -/
def rCB : Renderer :=
  { quads := [⟨⟨0 + 0, 0 + 0⟩, ⟨1, 1, 1⟩⟩],
    quad_size := 50,
    current_quad_index := 1,
    vertices := writeCorners
      (cornerVertices ⟨0, 0⟩ (50 * ((2 : ℕ) : ℚ)) (50 * ((1 : ℕ) : ℚ))
        ⟨1, 1, 1⟩)
      0 ⟨0 + 0, 0 + 0⟩ 50 ⟨1, 1, 1⟩,
    indices := sextet 0 }

/-- The batch state after creating one unit quad at `(200, 230)` and
translating it by `(5, 0)` — a concrete test state. -/
def rW : Renderer :=
  { quads := [⟨⟨200 + 5, 230 + 0⟩, ⟨0, 1, 0⟩⟩],
    quad_size := 50,
    current_quad_index := 1,
    vertices := writeCorners (cornerVertices ⟨200, 230⟩ 50 50 ⟨0, 1, 0⟩) 0
      ⟨200 + 5, 230 + 0⟩ 50 ⟨0, 1, 0⟩,
    indices := sextet 0 }

/-- One call against the batch — the four mutating operations the spec's
Geometry Batch exposes. -/
inductive Op where
  | createQuad (position : Point2) (color : Point3)
  | createBlock (position : Point2) (length : ℕ × ℕ) (color : Point3)
  | translate (index : ℕ) (delta : Point2)
  | setPosition (index : ℕ) (position : Point2)
deriving DecidableEq, Repr

/-- Whether the call is a `create_block`. -/
def Op.isBlockCreate : Op → Bool
  | .createBlock _ _ _ => true
  | _ => false

/-- The slot an operation mutates in place (`none` for the appends). -/
def Op.target : Op → Option ℕ
  | .createQuad _ _ => none
  | .createBlock _ _ _ => none
  | .translate i _ => some i
  | .setPosition i _ => some i

/-- Run one batch call (dropping the returned slot for the creates). -/
def execOp (r : Renderer) : Op → Option Renderer
  | .createQuad p c => (r.create_quad p c).map Prod.fst
  | .createBlock p len c => (r.create_block p len c).map Prod.fst
  | .translate i d => r.update_quad_data i d
  | .setPosition i p => r.change_quad_data i p

/-- Run a sequence of batch calls. -/
def execOps (r : Renderer) : List Op → Option Renderer
  | [] => some r
  | op :: ops => (execOp r op).bind fun r' => execOps r' ops

/-- Run a sequence of batch calls, collecting the slot index returned by
each create. -/
def execTrace (r : Renderer) : List Op → Option (Renderer × List ℕ)
  | [] => some (r, [])
  | .createQuad p c :: ops =>
    (r.create_quad p c).bind fun x =>
      (execTrace x.1 ops).map fun y => (y.1, x.2 :: y.2)
  | .createBlock p len c :: ops =>
    (r.create_block p len c).bind fun x =>
      (execTrace x.1 ops).map fun y => (y.1, x.2 :: y.2)
  | .translate i d :: ops =>
    (r.update_quad_data i d).bind fun r' => execTrace r' ops
  | .setPosition i p :: ops =>
    (r.change_quad_data i p).bind fun r' => execTrace r' ops

/-- The bookkeeping invariant of a batch: the count mirrors the number of
live quads, the count respects the `u16` index budget, the vertex array
holds 4 entries per quad, and the index array is exactly the concatenated
sextets of the live slots. -/
def BatchWf (r : Renderer) : Prop :=
  r.current_quad_index = r.quads.length
  ∧ r.quads.length ≤ 16384
  ∧ r.vertices.length = 4 * r.quads.length
  ∧ r.indices = (List.range r.quads.length).flatMap sextet

/-- The geometric invariant of an all-unit-quad batch: the vertex array is
exactly the concatenated `cell_size` squares of the live quad records. -/
def GeomRep (r : Renderer) : Prop :=
  r.vertices = r.quads.flatMap (cornersOf r.quad_size)

/-- `lib.rs::Player`: the scene's controllable entity. -/
structure Player where
  index : ℕ
  pos : Point2
  speed : ℚ
  is_left_pressed : Bool
  is_right_pressed : Bool
  gravity : ℚ
deriving DecidableEq, Repr

/-- `lib.rs::Block`: the scene's static obstacle. -/
structure Block where
  index : ℕ
  pos : Point2
deriving DecidableEq, Repr

/-- `lib.rs::State`, restricted to the fields the tick reads (window, GPU
handles and camera are out-of-scope collaborators).  `block_length` is the
extent the block was created with in `State::new` (`(6, 1)` there); the
source's call to the collision checker omits this argument of
`check_player_gravity_collission`, so the model carries the creation-time
value alongside the block. -/
structure GameState where
  renderer : Renderer
  player : Player
  block : Block
  block_length : ℕ × ℕ
  quad_size : ℚ
deriving DecidableEq, Repr

/-- `lib.rs::State::update`, one simulation tick: optional horizontal moves
from the input flags, then gravity with collision resolution against the
block.  Each renderer call panics on an out-of-range slot, hence the
`Option`. -/
def GameState.update (s : GameState) : Option GameState :=
  (if s.player.is_right_pressed then
      (s.renderer.update_quad_data s.player.index ⟨s.player.speed, 0⟩).map
        fun r =>
          { s with
            renderer := r,
            player := { s.player with
              pos := ⟨s.player.pos.x + s.player.speed, s.player.pos.y⟩ } }
    else some s).bind fun s1 =>
  (if s1.player.is_left_pressed then
      (s1.renderer.update_quad_data s1.player.index
          ⟨-s1.player.speed, 0⟩).map
        fun r =>
          { s1 with
            renderer := r,
            player := { s1.player with
              pos := ⟨s1.player.pos.x - s1.player.speed,
                s1.player.pos.y⟩ } }
    else some s1).bind fun s2 =>
  let player_pos_after_gravity : Point2 :=
    ⟨s2.player.pos.x, s2.player.pos.y - s2.player.gravity⟩
  match check_player_gravity_collission player_pos_after_gravity
      s2.block.pos s2.quad_size s2.block_length with
  | some new_player_pos =>
    (s2.renderer.change_quad_data s2.player.index new_player_pos).map
      fun r =>
        { s2 with
          renderer := r,
          player := { s2.player with pos := new_player_pos } }
  | none =>
    (s2.renderer.update_quad_data s2.player.index
        ⟨0, -s2.player.gravity⟩).map
      fun r =>
        { s2 with
          renderer := r,
          player := { s2.player with pos := player_pos_after_gravity } }

/-- The scene/batch synchronisation invariant of C10: the player's slot is
live, the vertex array has its invariant length, and the batch's record at
the player's slot stores the player's authoritative position. -/
def StateInv (s : GameState) : Prop :=
  s.player.index < s.renderer.quads.length
  ∧ s.renderer.vertices.length = 4 * s.renderer.quads.length
  ∧ (s.renderer.quads.get? s.player.index).map QuadInfo.pos
      = some s.player.pos

/-- A concrete scene state (player at the origin on slot 0, the `6 × 1`
block on slot 1) used to exercise the tick. -/
def gsW : GameState :=
  { renderer := rPB,
    player :=
      { index := 0, pos := ⟨0, 0⟩, speed := 5,
        is_left_pressed := false, is_right_pressed := false, gravity := 3 },
    block := { index := 1, pos := ⟨200, 230⟩ },
    block_length := (6, 1),
    quad_size := 50 }

end Shooter

namespace Shooter

/-- C1, as written by the spec: when the collision conditions hold, the
corrected position would be `(px, oy - ph)`.  False on the code: at the
scene's own block `(200, 230)` of extent `6 × 1` and the player proposed at
`(200, 230)` with `quad_size = 50`, the resolver returns `(200, 280)`
(the obstacle's top edge, `oy + oh`), not `(200, 230 - 50)`. -/
theorem c1_counterexample :
    check_player_gravity_collission ⟨200, 230⟩ ⟨200, 230⟩ 50 (6, 1)
      = some ⟨200, 280⟩
    ∧ check_player_gravity_collission ⟨200, 230⟩ ⟨200, 230⟩ 50 (6, 1)
      ≠ some ⟨200, 230 - 50⟩ := by
  constructor <;> · simp only [check_player_gravity_collission]
                    push_cast
                    norm_num [Point2.mk.injEq]

/-- C1 (amended): when both the horizontal-overlap condition and the vertical
approach-from-above condition hold, the returned corrected position is
`(px, oy + oh)`: the x coordinate is the proposed player x unchanged, and the
y coordinate is the obstacle's top edge `block_pos.y + quad_size * len.y`
(the player's bottom edge, its `y` in this Y-up convention, rests exactly on
the obstacle's top edge). -/
theorem c1_collision_returns_top_edge (p b : Point2) (qs : ℚ) (len : ℕ × ℕ)
    (hx1 : p.x + qs ≥ b.x) (hx2 : p.x < b.x + qs * (len.1 : ℚ))
    (hy1 : p.y + qs > b.y) (hy2 : p.y ≤ b.y + qs * (len.2 : ℚ)) :
    check_player_gravity_collission p b qs len
      = some ⟨p.x, b.y + qs * (len.2 : ℚ)⟩ := by
  unfold check_player_gravity_collission
  rw [if_pos ⟨hx1, hx2, hy1, hy2⟩]

/-- Witness for C1 (amended): 50×50 player proposed at `(200, 230)` against a
block positioned at `(200, 180)` of extent `1 × 1` — top edge at `230` — is
corrected to `(200, 230)`. -/
theorem c1_collision_returns_top_edge_witness :
    check_player_gravity_collission ⟨200, 230⟩ ⟨200, 180⟩ 50 (1, 1)
      = some ⟨200, 230⟩ := by
  have h := c1_collision_returns_top_edge ⟨200, 230⟩ ⟨200, 180⟩ 50 (1, 1)
    (by push_cast; norm_num) (by push_cast; norm_num)
    (by push_cast; norm_num) (by push_cast; norm_num)
  rw [h]
  push_cast
  norm_num [Point2.mk.injEq]

/-- C2, as written by the spec: the resolver would return `some` only when
`px + pw > ox` holds strictly.  False on the code, which tests `≥`: the
player proposed at `(150, 230)` exactly touches the block at `(200, 230)`
(`150 + 50 = 200`), yet the resolver still fires. -/
theorem c2_counterexample :
    (check_player_gravity_collission ⟨150, 230⟩ ⟨200, 230⟩ 50 (6, 1)).isSome
      = true
    ∧ ¬((150 : ℚ) + 50 > 200) := by
  constructor
  · simp only [check_player_gravity_collission]
    push_cast
    norm_num
  · norm_num

/-- C2 (amended): the resolver returns `some` if and only if
`px + pw ≥ ox` (non-strict) and `px < ox + ow` and `py + ph > oy` and
`py ≤ oy + oh`; otherwise it returns `none`. -/
theorem c2_some_iff (p b : Point2) (qs : ℚ) (len : ℕ × ℕ) :
    (check_player_gravity_collission p b qs len).isSome = true
      ↔ (p.x + qs ≥ b.x ∧ p.x < b.x + qs * (len.1 : ℚ)
          ∧ p.y + qs > b.y ∧ p.y ≤ b.y + qs * (len.2 : ℚ)) := by
  unfold check_player_gravity_collission
  by_cases h : p.x + qs ≥ b.x ∧ p.x < b.x + qs * (len.1 : ℚ)
      ∧ p.y + qs > b.y ∧ p.y ≤ b.y + qs * (len.2 : ℚ)
  · rw [if_pos h]
    simpa using h
  · rw [if_neg h]
    simpa using h

/-- C3: when the horizontal ranges `[px, px+pw]` and `[ox, ox+ow]` are
disjoint, the resolver returns `none`, for every vertical alignment. -/
theorem c3_no_horizontal_overlap_none (p b : Point2) (qs : ℚ) (len : ℕ × ℕ)
    (h : p.x + qs < b.x ∨ b.x + qs * (len.1 : ℚ) < p.x) :
    check_player_gravity_collission p b qs len = none := by
  unfold check_player_gravity_collission
  rw [if_neg]
  rcases h with h | h
  · exact fun hc => absurd hc.1 (not_le.mpr h)
  · exact fun hc => absurd hc.2.1 (not_lt.mpr (le_of_lt h))

/-- Witness for C3: a player spanning `x ∈ [400, 450]` against a block
spanning `x ∈ [200, 250]` yields `none` (here at a vertical alignment that
would otherwise collide). -/
theorem c3_no_horizontal_overlap_none_witness :
    (250 : ℚ) < 400
    ∧ check_player_gravity_collission ⟨400, 230⟩ ⟨200, 230⟩ 50 (1, 1)
        = none := by
  refine ⟨by norm_num, ?_⟩
  exact c3_no_horizontal_overlap_none ⟨400, 230⟩ ⟨200, 230⟩ 50 (1, 1)
    (Or.inr (by norm_num))

/-- C7, as written by the spec: from a resting position returned by the
resolver, re-proposing a fall by ANY positive gravity step would return the
same resting position.  False on the code for a large step (tunneling): the
resting position `(200, 280)` on the scene's block, re-proposed with gravity
step `200`, yields `none` — the player falls through. -/
theorem c7_counterexample :
    check_player_gravity_collission ⟨200, 230⟩ ⟨200, 230⟩ 50 (6, 1)
      = some ⟨200, 280⟩
    ∧ (0 : ℚ) < 200
    ∧ check_player_gravity_collission ⟨200, 280 - 200⟩ ⟨200, 230⟩ 50 (6, 1)
      = none := by
  refine ⟨?_, by norm_num, ?_⟩ <;>
    · simp only [check_player_gravity_collission]
      push_cast
      norm_num [Point2.mk.injEq]

/-- C7 (amended): once the player's position equals a resting position
returned by the resolver for a given obstacle, re-proposing a fall by a
positive gravity step `g` that is smaller than the combined heights
`quad_size * (len.y + 1)` returns `some` of the same resting position: the
player never sinks through a block it is resting on (the bound excludes only
the tunneling regime the spec flags separately). -/
theorem c7_rest_idempotent (p b rest : Point2) (qs g : ℚ) (len : ℕ × ℕ)
    (hrest : check_player_gravity_collission p b qs len = some rest)
    (hg0 : 0 < g) (hg : g < qs * ((len.2 : ℚ) + 1)) :
    check_player_gravity_collission ⟨rest.x, rest.y - g⟩ b qs len
      = some rest := by
  unfold check_player_gravity_collission at hrest
  by_cases hc : p.x + qs ≥ b.x ∧ p.x < b.x + qs * (len.1 : ℚ)
      ∧ p.y + qs > b.y ∧ p.y ≤ b.y + qs * (len.2 : ℚ)
  · rw [if_pos hc] at hrest
    obtain ⟨hx1, hx2, _, _⟩ := hc
    obtain rfl : rest = ⟨p.x, b.y + qs * (len.2 : ℚ)⟩ :=
      (Option.some_inj.mp hrest).symm
    have h1 : p.x + qs ≥ b.x := hx1
    have h2 : p.x < b.x + qs * (len.1 : ℚ) := hx2
    have h3 : b.y + qs * (len.2 : ℚ) - g + qs > b.y := by linarith
    have h4 : b.y + qs * (len.2 : ℚ) - g ≤ b.y + qs * (len.2 : ℚ) := by
      linarith
    unfold check_player_gravity_collission
    rw [if_pos ⟨h1, h2, h3, h4⟩]
  · rw [if_neg hc] at hrest
    exact absurd hrest (by simp)

/-- Witness for C7 (amended): resting at `(200, 280)` on the scene's block,
a renewed fall by the game's gravity step `3 < 50 * (1 + 1)` is caught and
returns the same resting position. -/
theorem c7_rest_idempotent_witness :
    check_player_gravity_collission ⟨200, 280 - 3⟩ ⟨200, 230⟩ 50 (6, 1)
      = some ⟨200, 280⟩ := by
  have h := c7_rest_idempotent ⟨200, 230⟩ ⟨200, 230⟩ ⟨200, 280⟩ 50 3 (6, 1)
    (by simp only [check_player_gravity_collission]
        push_cast
        norm_num [Point2.mk.injEq])
    (by norm_num) (by push_cast; norm_num)
  exact h

lemma createN_succeeds (n : ℕ) (r : Renderer)
    (h : r.current_quad_index + n ≤ 16384) :
    ∃ r', createN r n = some r'
      ∧ r'.current_quad_index = r.current_quad_index + n := by
  induction n generalizing r with
  | zero => exact ⟨r, rfl, by simp⟩
  | succ n ih =>
    have hguard : 4 * r.current_quad_index + 3 < 65536 := by omega
    have hstep : r.create_quad ⟨0, 0⟩ ⟨0, 1, 0⟩
        = some ({ r with
            quads := r.quads ++ [⟨⟨0, 0⟩, ⟨0, 1, 0⟩⟩],
            current_quad_index := r.current_quad_index + 1,
            vertices := r.vertices
              ++ cornerVertices ⟨0, 0⟩ r.quad_size r.quad_size ⟨0, 1, 0⟩,
            indices := r.indices ++ sextet r.current_quad_index },
          r.current_quad_index) := by
      unfold Renderer.create_quad
      rw [if_pos hguard]
    obtain ⟨r', hr', hcur⟩ := ih
      { r with
        quads := r.quads ++ [⟨⟨0, 0⟩, ⟨0, 1, 0⟩⟩],
        current_quad_index := r.current_quad_index + 1,
        vertices := r.vertices
          ++ cornerVertices ⟨0, 0⟩ r.quad_size r.quad_size ⟨0, 1, 0⟩,
        indices := r.indices ++ sextet r.current_quad_index }
      (show r.current_quad_index + 1 + n ≤ 16384 by omega)
    refine ⟨r', ?_, ?_⟩
    · unfold createN
      rw [hstep]
      simpa using hr'
    · rw [hcur]
      show r.current_quad_index + 1 + n = r.current_quad_index + (n + 1)
      omega

/-- C4, as written by the spec: `create_quad` would never fail for any
number of quads already created.  False on the code: the index elements go
through `u16::try_into().unwrap()`, so after 16384 successful creations
(slots 0‥16383, the last sextet ending at element 65535) the next
`create_quad` hits an unrepresentable element `4*16384 = 65536` and
panics. -/
theorem c4_counterexample :
    ∃ r, createN (Renderer.new 50) 16384 = some r
      ∧ r.create_quad ⟨0, 0⟩ ⟨0, 1, 0⟩ = none := by
  obtain ⟨r, hr, hcur⟩ := createN_succeeds 16384 (Renderer.new 50)
    (by simp [Renderer.new])
  refine ⟨r, hr, ?_⟩
  unfold Renderer.create_quad
  rw [if_neg]
  simp [Renderer.new] at hcur
  omega

/-- C4 (amended): whenever the next free slot's index elements are
representable (`4*current_count + 3 < 2^16`, i.e. fewer than 16384 quads
created so far), `create_quad` — and likewise `create_block` — succeeds,
appends exactly one quad record, 4 vertices and 6 indices addressed by the
next free slot `current_count`, and increments the count. -/
theorem c4_create_appends (r : Renderer) (p : Point2) (c : Point3)
    (len : ℕ × ℕ) (h : 4 * r.current_quad_index + 3 < 65536) :
    (∃ r', r.create_quad p c = some (r', r.current_quad_index)
      ∧ r'.quads = r.quads ++ [⟨p, c⟩]
      ∧ r'.vertices = r.vertices
          ++ cornerVertices p r.quad_size r.quad_size c
      ∧ r'.indices = r.indices ++ sextet r.current_quad_index
      ∧ r'.current_quad_index = r.current_quad_index + 1)
    ∧ (∃ r', r.create_block p len c = some (r', r.current_quad_index)
      ∧ r'.quads = r.quads ++ [⟨p, c⟩]
      ∧ r'.vertices = r.vertices
          ++ cornerVertices p (r.quad_size * (len.1 : ℚ))
              (r.quad_size * (len.2 : ℚ)) c
      ∧ r'.indices = r.indices ++ sextet r.current_quad_index
      ∧ r'.current_quad_index = r.current_quad_index + 1) := by
  constructor
  · refine ⟨{ r with
        quads := r.quads ++ [⟨p, c⟩],
        current_quad_index := r.current_quad_index + 1,
        vertices := r.vertices
          ++ cornerVertices p r.quad_size r.quad_size c,
        indices := r.indices ++ sextet r.current_quad_index },
      ?_, rfl, rfl, rfl, rfl⟩
    unfold Renderer.create_quad
    rw [if_pos h]
  · refine ⟨{ r with
        quads := r.quads ++ [⟨p, c⟩],
        current_quad_index := r.current_quad_index + 1,
        vertices := r.vertices
          ++ cornerVertices p (r.quad_size * (len.1 : ℚ))
              (r.quad_size * (len.2 : ℚ)) c,
        indices := r.indices ++ sextet r.current_quad_index },
      ?_, rfl, rfl, rfl, rfl⟩
    unfold Renderer.create_block
    rw [if_pos h]

/-- Witness for C4 (amended): the fresh batch accepts its first quad and
first block, each appending 4 vertices and 6 indices at slot 0. -/
theorem c4_create_appends_witness :
    4 * (Renderer.new 50).current_quad_index + 3 < 65536
    ∧ ((∃ r', (Renderer.new 50).create_quad ⟨0, 0⟩ ⟨0, 1, 0⟩ = some (r', 0)
          ∧ r'.quads = [⟨⟨0, 0⟩, ⟨0, 1, 0⟩⟩]
          ∧ r'.vertices = cornerVertices ⟨0, 0⟩ 50 50 ⟨0, 1, 0⟩
          ∧ r'.indices = sextet 0
          ∧ r'.current_quad_index = 1)) := by
  refine ⟨by simp [Renderer.new], ?_⟩
  obtain ⟨⟨r', hc, hq, hv, hi, hn⟩, -⟩ :=
    c4_create_appends (Renderer.new 50) ⟨0, 0⟩ ⟨0, 1, 0⟩ (1, 1)
      (by simp [Renderer.new])
  exact ⟨r', hc, by simpa [Renderer.new] using hq,
    by simpa [Renderer.new] using hv, by simpa [Renderer.new] using hi,
    by simpa [Renderer.new] using hn⟩

/-- C6: for any batch, any slot holding a record `q`, and any delta,
`update_quad_data slot delta` (the spec's `translate`) returns exactly the
same batch state — same stored position, same vertex array — as
`change_quad_data slot (q.pos + delta)` (the spec's `set_position`). -/
theorem c6_translate_set_equiv (r : Renderer) (i : ℕ) (d : Point2)
    (q : QuadInfo) (hq : r.quads.get? i = some q) :
    r.update_quad_data i d
      = r.change_quad_data i ⟨q.pos.x + d.x, q.pos.y + d.y⟩ := by
  unfold Renderer.update_quad_data Renderer.change_quad_data
  rw [hq]

/-- Witness for C6: on a one-quad batch, translating slot 0 by `(5, -3)`
coincides with setting its position to `(200 + 5, 230 - 3)`. -/
theorem c6_translate_set_equiv_witness :
    ({ quads := [⟨⟨200, 230⟩, ⟨0, 1, 0⟩⟩], quad_size := 50,
       current_quad_index := 1,
       vertices := cornerVertices ⟨200, 230⟩ 50 50 ⟨0, 1, 0⟩,
       indices := sextet 0 } : Renderer).update_quad_data 0 ⟨5, -3⟩
      = ({ quads := [⟨⟨200, 230⟩, ⟨0, 1, 0⟩⟩], quad_size := 50,
           current_quad_index := 1,
           vertices := cornerVertices ⟨200, 230⟩ 50 50 ⟨0, 1, 0⟩,
           indices := sextet 0 } : Renderer).change_quad_data 0
          ⟨200 + 5, 230 + -3⟩ := by
  exact c6_translate_set_equiv _ 0 ⟨5, -3⟩ ⟨⟨200, 230⟩, ⟨0, 1, 0⟩⟩ rfl

/-- C9: on any batch whose vertex array has the invariant length
`4 * live_count`, `update_quad_data` and `change_quad_data` fail fast
(`none`, the Rust index panic) for every slot `≥ live_count`, and for every
in-range slot the error branch is unreachable (they return `some`). -/
theorem c9_out_of_range_fails (r : Renderer) (i : ℕ) (d p : Point2)
    (hlen : r.vertices.length = 4 * r.quads.length) :
    (r.quads.length ≤ i →
      r.update_quad_data i d = none ∧ r.change_quad_data i p = none)
    ∧ (i < r.quads.length →
      (r.update_quad_data i d).isSome = true
        ∧ (r.change_quad_data i p).isSome = true) := by
  constructor
  · intro hout
    have hnone : r.quads.get? i = none := List.get?_eq_none.mpr hout
    constructor
    · unfold Renderer.update_quad_data
      rw [hnone]
    · unfold Renderer.change_quad_data
      rw [hnone]
  · intro hin
    have hq : r.quads.get? i = some (r.quads.get ⟨i, hin⟩) :=
      List.get?_eq_get hin
    have hbound : 4 * i + 3 < r.vertices.length := by
      rw [hlen]; omega
    constructor
    · unfold Renderer.update_quad_data
      rw [hq]
      simp [hbound]
    · unfold Renderer.change_quad_data
      rw [hq]
      simp [hbound]

/-- Witness for C9: on the one-quad batch, slot 1 fails both mutators and
slot 0 succeeds on both. -/
theorem c9_out_of_range_fails_witness :
    (({ quads := [⟨⟨200, 230⟩, ⟨0, 1, 0⟩⟩], quad_size := 50,
        current_quad_index := 1,
        vertices := cornerVertices ⟨200, 230⟩ 50 50 ⟨0, 1, 0⟩,
        indices := sextet 0 } : Renderer).update_quad_data 1 ⟨5, 0⟩ = none
      ∧ ({ quads := [⟨⟨200, 230⟩, ⟨0, 1, 0⟩⟩], quad_size := 50,
           current_quad_index := 1,
           vertices := cornerVertices ⟨200, 230⟩ 50 50 ⟨0, 1, 0⟩,
           indices := sextet 0 } : Renderer).change_quad_data 1 ⟨5, 0⟩
          = none)
    ∧ (({ quads := [⟨⟨200, 230⟩, ⟨0, 1, 0⟩⟩], quad_size := 50,
          current_quad_index := 1,
          vertices := cornerVertices ⟨200, 230⟩ 50 50 ⟨0, 1, 0⟩,
          indices := sextet 0 } : Renderer).update_quad_data 0
            ⟨5, 0⟩).isSome = true
      ∧ (({ quads := [⟨⟨200, 230⟩, ⟨0, 1, 0⟩⟩], quad_size := 50,
            current_quad_index := 1,
            vertices := cornerVertices ⟨200, 230⟩ 50 50 ⟨0, 1, 0⟩,
            indices := sextet 0 } : Renderer).change_quad_data 0
              ⟨5, 0⟩).isSome = true := by
  have h := c9_out_of_range_fails
    { quads := [⟨⟨200, 230⟩, ⟨0, 1, 0⟩⟩], quad_size := 50,
      current_quad_index := 1,
      vertices := cornerVertices ⟨200, 230⟩ 50 50 ⟨0, 1, 0⟩,
      indices := sextet 0 } 1 ⟨5, 0⟩ ⟨5, 0⟩ (by simp [cornerVertices])
  have h0 := c9_out_of_range_fails
    { quads := [⟨⟨200, 230⟩, ⟨0, 1, 0⟩⟩], quad_size := 50,
      current_quad_index := 1,
      vertices := cornerVertices ⟨200, 230⟩ 50 50 ⟨0, 1, 0⟩,
      indices := sextet 0 } 0 ⟨5, 0⟩ ⟨5, 0⟩ (by simp [cornerVertices])
  exact ⟨h.1 (by norm_num), h0.2 (by norm_num)⟩

lemma create_quad_eq {r : Renderer} {p : Point2} {c : Point3}
    {x : Renderer × ℕ} (h : r.create_quad p c = some x) :
    4 * r.current_quad_index + 3 < 65536
    ∧ x = ({ r with
        quads := r.quads ++ [⟨p, c⟩],
        current_quad_index := r.current_quad_index + 1,
        vertices := r.vertices
          ++ cornerVertices p r.quad_size r.quad_size c,
        indices := r.indices ++ sextet r.current_quad_index },
      r.current_quad_index) := by
  unfold Renderer.create_quad at h
  by_cases hg : 4 * r.current_quad_index + 3 < 65536
  · rw [if_pos hg] at h
    exact ⟨hg, (Option.some_inj.mp h).symm⟩
  · rw [if_neg hg] at h
    exact absurd h (by simp)

lemma create_block_eq {r : Renderer} {p : Point2} {len : ℕ × ℕ}
    {c : Point3} {x : Renderer × ℕ} (h : r.create_block p len c = some x) :
    4 * r.current_quad_index + 3 < 65536
    ∧ x = ({ r with
        quads := r.quads ++ [⟨p, c⟩],
        current_quad_index := r.current_quad_index + 1,
        vertices := r.vertices
          ++ cornerVertices p (r.quad_size * (len.1 : ℚ))
              (r.quad_size * (len.2 : ℚ)) c,
        indices := r.indices ++ sextet r.current_quad_index },
      r.current_quad_index) := by
  unfold Renderer.create_block at h
  by_cases hg : 4 * r.current_quad_index + 3 < 65536
  · rw [if_pos hg] at h
    exact ⟨hg, (Option.some_inj.mp h).symm⟩
  · rw [if_neg hg] at h
    exact absurd h (by simp)

lemma update_quad_data_eq {r : Renderer} {i : ℕ} {d : Point2}
    {r' : Renderer} (h : r.update_quad_data i d = some r') :
    ∃ q, r.quads.get? i = some q
      ∧ 4 * i + 3 < r.vertices.length
      ∧ r' = { r with
          vertices := writeCorners r.vertices i
            ⟨q.pos.x + d.x, q.pos.y + d.y⟩ r.quad_size q.color,
          quads := r.quads.set i
            ⟨⟨q.pos.x + d.x, q.pos.y + d.y⟩, q.color⟩ } := by
  unfold Renderer.update_quad_data at h
  cases hq : r.quads.get? i with
  | none => rw [hq] at h; exact absurd h (by simp)
  | some q =>
    rw [hq] at h
    dsimp only at h
    by_cases hb : 4 * i + 3 < r.vertices.length
    · rw [if_pos hb] at h
      exact ⟨q, rfl, hb, (Option.some_inj.mp h).symm⟩
    · rw [if_neg hb] at h
      exact absurd h (by simp)

lemma change_quad_data_eq {r : Renderer} {i : ℕ} {p : Point2}
    {r' : Renderer} (h : r.change_quad_data i p = some r') :
    ∃ q, r.quads.get? i = some q
      ∧ 4 * i + 3 < r.vertices.length
      ∧ r' = { r with
          vertices := writeCorners r.vertices i p r.quad_size q.color,
          quads := r.quads.set i ⟨p, q.color⟩ } := by
  unfold Renderer.change_quad_data at h
  cases hq : r.quads.get? i with
  | none => rw [hq] at h; exact absurd h (by simp)
  | some q =>
    rw [hq] at h
    dsimp only at h
    by_cases hb : 4 * i + 3 < r.vertices.length
    · rw [if_pos hb] at h
      exact ⟨q, rfl, hb, (Option.some_inj.mp h).symm⟩
    · rw [if_neg hb] at h
      exact absurd h (by simp)

lemma writeCorners_get?_ne (v : List Vertex) (i : ℕ) (pos : Point2) (s : ℚ)
    (c : Point3) (n : ℕ) (hn : n < 4 * i ∨ 4 * i + 3 < n) :
    (writeCorners v i pos s c).get? n = v.get? n := by
  unfold writeCorners
  rw [List.get?_set_ne _ _ (by omega), List.get?_set_ne _ _ (by omega),
    List.get?_set_ne _ _ (by omega), List.get?_set_ne _ _ (by omega)]

lemma execTrace_slots (ops : List Op) :
    ∀ (r rf : Renderer) (slots : List ℕ),
      execTrace r ops = some (rf, slots) →
      slots = List.range' r.current_quad_index slots.length
      ∧ rf.current_quad_index = r.current_quad_index + slots.length := by
  induction ops with
  | nil =>
    intro r rf slots h
    rw [execTrace] at h
    obtain ⟨rfl, rfl⟩ := Prod.mk.injEq .. ▸ Option.some_inj.mp h
    simp
  | cons op ops ih =>
    intro r rf slots h
    cases op with
    | createQuad p c =>
      rw [execTrace] at h
      rw [Option.bind_eq_some] at h
      obtain ⟨x, hx, h⟩ := h
      obtain ⟨-, rfl⟩ := create_quad_eq hx
      rw [Option.map_eq_some'] at h
      obtain ⟨y, hy, h⟩ := h
      obtain ⟨h1, h2⟩ := Prod.mk.injEq .. ▸ h
      obtain ⟨hs, hc⟩ := ih _ _ _ hy
      subst h1
      subst h2
      constructor
      · rw [List.length_cons, List.range'_succ]
        exact congrArg _ hs
      · rw [hc]
        simp
        omega
    | createBlock p len c =>
      rw [execTrace] at h
      rw [Option.bind_eq_some] at h
      obtain ⟨x, hx, h⟩ := h
      obtain ⟨-, rfl⟩ := create_block_eq hx
      rw [Option.map_eq_some'] at h
      obtain ⟨y, hy, h⟩ := h
      obtain ⟨h1, h2⟩ := Prod.mk.injEq .. ▸ h
      obtain ⟨hs, hc⟩ := ih _ _ _ hy
      subst h1
      subst h2
      constructor
      · rw [List.length_cons, List.range'_succ]
        exact congrArg _ hs
      · rw [hc]
        simp
        omega
    | translate i d =>
      rw [execTrace] at h
      rw [Option.bind_eq_some] at h
      obtain ⟨r1, hr1, h⟩ := h
      obtain ⟨q, -, -, rfl⟩ := update_quad_data_eq hr1
      have h2 := ih _ _ _ h
      exact h2
    | setPosition i p =>
      rw [execTrace] at h
      rw [Option.bind_eq_some] at h
      obtain ⟨r1, hr1, h⟩ := h
      obtain ⟨q, -, -, rfl⟩ := change_quad_data_eq hr1
      have h2 := ih _ _ _ h
      exact h2

/-- C8: (a) starting from a fresh batch, the slot indices returned by the
creations of any call sequence are exactly `0, 1, 2, …` in order — strictly
increasing, starting at 0, incremented once per creation; (b) any single
successful call that is not an in-place mutation of slot `j` leaves slot
`j`'s quad record and its region of the vertex and index arrays
(`[4j, 4j+4)` and `[6j, 6j+6)`) untouched. -/
theorem c8_slot_stability :
    (∀ (s : ℚ) (ops : List Op) (rf : Renderer) (slots : List ℕ),
        execTrace (Renderer.new s) ops = some (rf, slots) →
        slots = List.range slots.length)
    ∧ (∀ (r : Renderer) (op : Op) (r' : Renderer) (j : ℕ),
        r.vertices.length = 4 * r.quads.length →
        r.indices.length = 6 * r.quads.length →
        j < r.quads.length →
        op.target ≠ some j →
        execOp r op = some r' →
        r'.quads.get? j = r.quads.get? j
        ∧ (∀ k, k < 4 →
            r'.vertices.get? (4 * j + k) = r.vertices.get? (4 * j + k))
        ∧ (∀ k, k < 6 →
            r'.indices.get? (6 * j + k) = r.indices.get? (6 * j + k))) := by
  constructor
  · intro s ops rf slots h
    have := (execTrace_slots ops _ _ _ h).1
    rw [this]
    rw [show (Renderer.new s).current_quad_index = 0 from rfl]
    rw [List.range_eq_range']
    rw [List.length_range']
  · intro r op r' j hvlen hilen hj hne hex
    cases op with
    | createQuad p c =>
      rw [execOp, Option.map_eq_some'] at hex
      obtain ⟨x, hx, rfl⟩ := hex
      obtain ⟨-, rfl⟩ := create_quad_eq hx
      refine ⟨List.get?_append (by omega), fun k hk => ?_, fun k hk => ?_⟩
      · exact List.get?_append (by omega)
      · exact List.get?_append (by omega)
    | createBlock p len c =>
      rw [execOp, Option.map_eq_some'] at hex
      obtain ⟨x, hx, rfl⟩ := hex
      obtain ⟨-, rfl⟩ := create_block_eq hx
      refine ⟨List.get?_append (by omega), fun k hk => ?_, fun k hk => ?_⟩
      · exact List.get?_append (by omega)
      · exact List.get?_append (by omega)
    | translate i d =>
      have hij : i ≠ j := fun hij => hne (by rw [Op.target, hij])
      rw [execOp] at hex
      obtain ⟨q, -, -, rfl⟩ := update_quad_data_eq hex
      exact ⟨List.get?_set_ne _ _ hij,
        fun k hk => writeCorners_get?_ne _ _ _ _ _ _ (by omega),
        fun k hk => rfl⟩
    | setPosition i p =>
      have hij : i ≠ j := fun hij => hne (by rw [Op.target, hij])
      rw [execOp] at hex
      obtain ⟨q, -, -, rfl⟩ := change_quad_data_eq hex
      exact ⟨List.get?_set_ne _ _ hij,
        fun k hk => writeCorners_get?_ne _ _ _ _ _ _ (by omega),
        fun k hk => rfl⟩

/-- Witness for C8: creating the scene's player quad then its block returns
slots `[0, 1] = range 2`, and translating the block (slot 1) leaves slot 0's
record and vertices untouched. -/
theorem c8_slot_stability_witness :
    [0, 1] = List.range 2
    ∧ execTrace (Renderer.new 50)
        [Op.createQuad ⟨0, 0⟩ ⟨0, 1, 0⟩,
         Op.createBlock ⟨200, 230⟩ (6, 1) ⟨1, 1, 1⟩]
      = some (rPB, [0, 1])
    ∧ execOp rPB (Op.translate 1 ⟨5, 0⟩) = some rPB2
    ∧ rPB2.quads.get? 0 = rPB.quads.get? 0
    ∧ rPB2.vertices.get? 1 = rPB.vertices.get? 1
    ∧ rPB2.indices.get? 5 = rPB.indices.get? 5 := by
  have hex : execTrace (Renderer.new 50)
      [Op.createQuad ⟨0, 0⟩ ⟨0, 1, 0⟩,
       Op.createBlock ⟨200, 230⟩ (6, 1) ⟨1, 1, 1⟩]
      = some (rPB, [0, 1]) := rfl
  have hex2 : execOp rPB (Op.translate 1 ⟨5, 0⟩) = some rPB2 := rfl
  have h1 := c8_slot_stability.1 50 _ _ _ hex
  have h2 := c8_slot_stability.2 rPB (Op.translate 1 ⟨5, 0⟩) rPB2 0
    (by simp [rPB, cornerVertices]) (by simp [rPB, sextet])
    (by simp [rPB]) (by simp [Op.target]) hex2
  exact ⟨h1, hex, hex2, h2.1, h2.2.1 1 (by norm_num),
    h2.2.2 5 (by norm_num)⟩

lemma set_add_four {α : Type} (a0 a1 a2 a3 : α) (l : List α) (m : ℕ)
    (x : α) :
    (a0 :: a1 :: a2 :: a3 :: l).set (m + 4) x
      = a0 :: a1 :: a2 :: a3 :: l.set m x := rfl

lemma drop_add_four {α : Type} (a0 a1 a2 a3 : α) (l : List α) (m : ℕ) :
    (a0 :: a1 :: a2 :: a3 :: l).drop (m + 4) = l.drop m := rfl

lemma length_flatMap_const {α β : Type} (f : α → List β) (k : ℕ)
    (hf : ∀ x, (f x).length = k) (l : List α) :
    (l.flatMap f).length = k * l.length := by
  induction l with
  | nil => simp
  | cons a t ih =>
    rw [List.flatMap_cons, List.length_append, hf, ih, List.length_cons]
    ring

lemma flatMap_seg {α β : Type} (f : α → List β) (k : ℕ)
    (hf : ∀ x, (f x).length = k) :
    ∀ (qs : List α) (j : ℕ) (q : α), qs.get? j = some q →
      ((qs.flatMap f).drop (k * j)).take k = f q := by
  intro qs
  induction qs with
  | nil => intro j q h; simp at h
  | cons a t ih =>
    intro j q h
    cases j with
    | zero =>
      rw [List.get?_cons_zero] at h
      obtain rfl := Option.some_inj.mp h
      rw [Nat.mul_zero, List.drop_zero, List.flatMap_cons, ← hf a]
      exact List.take_left _ _
    | succ j =>
      rw [List.get?_cons_succ] at h
      rw [List.flatMap_cons]
      have hmul : k * (j + 1) = (f a).length + k * j := by rw [hf]; ring
      rw [hmul, ← List.drop_drop, List.drop_left]
      exact ih j q h

lemma writeCorners_length (v : List Vertex) (i : ℕ) (pos : Point2) (s : ℚ)
    (c : Point3) : (writeCorners v i pos s c).length = v.length := by
  simp [writeCorners]

lemma writeCorners_append_four (v4 : List Vertex) (hlen : v4.length = 4)
    (l : List Vertex) (i : ℕ) (pos : Point2) (s : ℚ) (c : Point3) :
    writeCorners (v4 ++ l) (i + 1) pos s c
      = v4 ++ writeCorners l i pos s c := by
  match v4, hlen with
  | [a0, a1, a2, a3], _ =>
    show writeCorners (a0 :: a1 :: a2 :: a3 :: l) (i + 1) pos s c = _
    unfold writeCorners
    rw [show 4 * (i + 1) = 4 * i + 4 from by ring,
      show 4 * i + 4 + 1 = (4 * i + 1) + 4 from by ring,
      show 4 * i + 4 + 2 = (4 * i + 2) + 4 from by ring,
      show 4 * i + 4 + 3 = (4 * i + 3) + 4 from by ring,
      set_add_four, set_add_four, set_add_four, set_add_four]
    rfl

lemma writeCorners_flatMap (s : ℚ) :
    ∀ (qs : List QuadInfo) (i : ℕ) (pos : Point2) (c0 : Point3),
      i < qs.length →
      writeCorners (qs.flatMap (cornersOf s)) i pos s c0
        = (qs.set i ⟨pos, c0⟩).flatMap (cornersOf s) := by
  intro qs
  induction qs with
  | nil => intro i pos c0 h; simp at h
  | cons q t ih =>
    intro i pos c0 h
    cases i with
    | zero => rfl
    | succ i =>
      have hlt : i < t.length := by
        rw [List.length_cons] at h
        omega
      rw [List.flatMap_cons,
        writeCorners_append_four (cornersOf s q)
          (by simp [cornersOf, cornerVertices]) _ i pos s c0,
        ih i pos c0 hlt, List.set_cons_succ, List.flatMap_cons]

lemma writeCorners_seg_self :
    ∀ (v : List Vertex) (i : ℕ), 4 * i + 3 < v.length →
      ∀ (pos : Point2) (s : ℚ) (c : Point3),
        ((writeCorners v i pos s c).drop (4 * i)).take 4
          = cornerVertices pos s s c := by
  intro v i
  induction i generalizing v with
  | zero =>
    intro h pos s c
    rcases v with _ | ⟨a0, _ | ⟨a1, _ | ⟨a2, _ | ⟨a3, rest⟩⟩⟩⟩ <;>
      simp only [List.length_nil, List.length_cons] at h
    · omega
    · omega
    · omega
    · omega
    · rfl
  | succ i ih =>
    intro h pos s c
    rcases v with _ | ⟨a0, _ | ⟨a1, _ | ⟨a2, _ | ⟨a3, rest⟩⟩⟩⟩ <;>
      simp only [List.length_nil, List.length_cons] at h
    · omega
    · omega
    · omega
    · omega
    · rw [show writeCorners (a0 :: a1 :: a2 :: a3 :: rest) (i + 1) pos s c
          = a0 :: a1 :: a2 :: a3 :: writeCorners rest i pos s c from
          writeCorners_append_four [a0, a1, a2, a3] rfl rest i pos s c,
        show 4 * (i + 1) = 4 * i + 4 from by ring, drop_add_four]
      exact ih rest (by omega) pos s c

lemma new_wf (s : ℚ) : BatchWf (Renderer.new s) := by
  refine ⟨rfl, by simp [Renderer.new], by simp [Renderer.new], ?_⟩
  simp [Renderer.new]

lemma execOp_wf {r : Renderer} {op : Op} {r' : Renderer}
    (hwf : BatchWf r) (h : execOp r op = some r') :
    BatchWf r' ∧ r'.quad_size = r.quad_size := by
  obtain ⟨hcur, hcap, hvlen, hidx⟩ := hwf
  cases op with
  | createQuad p c =>
    rw [execOp, Option.map_eq_some'] at h
    obtain ⟨x, hx, rfl⟩ := h
    obtain ⟨hg, rfl⟩ := create_quad_eq hx
    rw [hcur] at hg
    refine ⟨⟨?_, ?_, ?_, ?_⟩, rfl⟩
    · simp [hcur]
    · simp only [List.length_append, List.length_cons, List.length_nil]
      omega
    · simp only [List.length_append, List.length_cons, List.length_nil,
        hvlen, cornerVertices]
      ring
    · show r.indices ++ sextet r.current_quad_index
        = (List.range (r.quads ++ [QuadInfo.mk p c]).length).flatMap sextet
      rw [hidx, hcur, List.length_append, List.length_cons, List.length_nil,
        List.range_succ, List.flatMap_append]
      simp
  | createBlock p len c =>
    rw [execOp, Option.map_eq_some'] at h
    obtain ⟨x, hx, rfl⟩ := h
    obtain ⟨hg, rfl⟩ := create_block_eq hx
    rw [hcur] at hg
    refine ⟨⟨?_, ?_, ?_, ?_⟩, rfl⟩
    · simp [hcur]
    · simp only [List.length_append, List.length_cons, List.length_nil]
      omega
    · simp only [List.length_append, List.length_cons, List.length_nil,
        hvlen, cornerVertices]
      ring
    · show r.indices ++ sextet r.current_quad_index
        = (List.range (r.quads ++ [QuadInfo.mk p c]).length).flatMap sextet
      rw [hidx, hcur, List.length_append, List.length_cons, List.length_nil,
        List.range_succ, List.flatMap_append]
      simp
  | translate i d =>
    rw [execOp] at h
    obtain ⟨q, hq, hb, rfl⟩ := update_quad_data_eq h
    refine ⟨⟨by simp [hcur], by simp [hcap], ?_, by simp [hidx]⟩, rfl⟩
    show (writeCorners _ _ _ _ _).length = 4 * (r.quads.set _ _).length
    rw [writeCorners_length, List.length_set]
    exact hvlen
  | setPosition i p =>
    rw [execOp] at h
    obtain ⟨q, hq, hb, rfl⟩ := change_quad_data_eq h
    refine ⟨⟨by simp [hcur], by simp [hcap], ?_, by simp [hidx]⟩, rfl⟩
    show (writeCorners _ _ _ _ _).length = 4 * (r.quads.set _ _).length
    rw [writeCorners_length, List.length_set]
    exact hvlen

lemma execOps_wf {ops : List Op} :
    ∀ {r r' : Renderer}, BatchWf r → execOps r ops = some r' →
      BatchWf r' := by
  induction ops with
  | nil =>
    intro r r' hwf h
    rw [execOps] at h
    obtain rfl := Option.some_inj.mp h
    exact hwf
  | cons op ops ih =>
    intro r r' hwf h
    rw [execOps, Option.bind_eq_some] at h
    obtain ⟨r1, h1, h2⟩ := h
    exact ih (execOp_wf hwf h1).1 h2

lemma execOp_geom {r : Renderer} {op : Op} {r' : Renderer}
    (hg : GeomRep r) (hnb : op.isBlockCreate = false)
    (h : execOp r op = some r') : GeomRep r' := by
  cases op with
  | createQuad p c =>
    rw [execOp, Option.map_eq_some'] at h
    obtain ⟨x, hx, rfl⟩ := h
    obtain ⟨-, rfl⟩ := create_quad_eq hx
    show r.vertices ++ cornerVertices p r.quad_size r.quad_size c
      = (r.quads ++ [QuadInfo.mk p c]).flatMap (cornersOf r.quad_size)
    rw [GeomRep] at hg
    rw [hg, List.flatMap_append]
    simp [cornersOf]
  | createBlock p len c =>
    exact absurd hnb (by simp [Op.isBlockCreate])
  | translate i d =>
    rw [execOp] at h
    obtain ⟨q, hq, hb, rfl⟩ := update_quad_data_eq h
    have hi : i < r.quads.length := by
      by_contra hc
      rw [List.get?_eq_none.mpr (le_of_not_lt hc)] at hq
      exact absurd hq (by simp)
    show writeCorners r.vertices i _ r.quad_size q.color
      = (r.quads.set i _).flatMap (cornersOf r.quad_size)
    rw [GeomRep] at hg
    rw [hg, writeCorners_flatMap r.quad_size r.quads i _ q.color hi]
  | setPosition i p =>
    rw [execOp] at h
    obtain ⟨q, hq, hb, rfl⟩ := change_quad_data_eq h
    have hi : i < r.quads.length := by
      by_contra hc
      rw [List.get?_eq_none.mpr (le_of_not_lt hc)] at hq
      exact absurd hq (by simp)
    show writeCorners r.vertices i p r.quad_size q.color
      = (r.quads.set i _).flatMap (cornersOf r.quad_size)
    rw [GeomRep] at hg
    rw [hg, writeCorners_flatMap r.quad_size r.quads i p q.color hi]

lemma execOp_quad_size {r : Renderer} {op : Op} {r' : Renderer}
    (h : execOp r op = some r') : r'.quad_size = r.quad_size := by
  cases op with
  | createQuad p c =>
    rw [execOp, Option.map_eq_some'] at h
    obtain ⟨x, hx, rfl⟩ := h
    obtain ⟨-, rfl⟩ := create_quad_eq hx
    rfl
  | createBlock p len c =>
    rw [execOp, Option.map_eq_some'] at h
    obtain ⟨x, hx, rfl⟩ := h
    obtain ⟨-, rfl⟩ := create_block_eq hx
    rfl
  | translate i d =>
    rw [execOp] at h
    obtain ⟨q, -, -, rfl⟩ := update_quad_data_eq h
    rfl
  | setPosition i p =>
    rw [execOp] at h
    obtain ⟨q, -, -, rfl⟩ := change_quad_data_eq h
    rfl

lemma execOps_geom {ops : List Op} :
    ∀ {r r' : Renderer}, GeomRep r →
      (∀ op ∈ ops, op.isBlockCreate = false) →
      execOps r ops = some r' → GeomRep r' := by
  induction ops with
  | nil =>
    intro r r' hg hnb h
    rw [execOps] at h
    obtain rfl := Option.some_inj.mp h
    exact hg
  | cons op ops ih =>
    intro r r' hg hnb h
    rw [execOps, Option.bind_eq_some] at h
    obtain ⟨r1, h1, h2⟩ := h
    exact ih (execOp_geom hg (hnb op (by simp)) h1)
      (fun o ho => hnb o (by simp [ho])) h2

end Shooter

namespace Shooter

/-- C5, as written by the spec: after every call sequence, every live
slot's 4 vertices would form the rectangle of that quad's extent.  False on
the code: the quad record stores no extent, and `update_quad_data` always
rewrites with the global `quad_size`, so translating a `2 × 1` block (even
by `(0, 0)`) collapses its vertices to a `50 × 50` square — vertex 1 sits at
`x = 0 + 50`, not at the rectangle corner `x = 0 + 50 * 2`. -/
theorem c5_counterexample :
    execOps (Renderer.new 50)
        [Op.createBlock ⟨0, 0⟩ (2, 1) ⟨1, 1, 1⟩, Op.translate 0 ⟨0, 0⟩]
      = some rCB
    ∧ rCB.quads.get? 0 = some ⟨⟨0 + 0, 0 + 0⟩, ⟨1, 1, 1⟩⟩
    ∧ (rCB.vertices.drop (4 * 0)).take 4
        ≠ cornerVertices ⟨0 + 0, 0 + 0⟩ (50 * ((2 : ℕ) : ℚ))
            (50 * ((1 : ℕ) : ℚ)) ⟨1, 1, 1⟩ := by
  refine ⟨rfl, rfl, ?_⟩
  intro hcontra
  have h1 : ((rCB.vertices.drop (4 * 0)).take 4).get? 1
      = (cornerVertices ⟨0 + 0, 0 + 0⟩ (50 * ((2 : ℕ) : ℚ))
          (50 * ((1 : ℕ) : ℚ)) ⟨1, 1, 1⟩).get? 1 := by rw [hcontra]
  have h2 : ((0 : ℚ) + 0) + 50 = ((0 : ℚ) + 0) + 50 * ((2 : ℕ) : ℚ) := by
    have := congrArg (fun o => ((o.getD ⟨⟨0, 0⟩, ⟨0, 0, 0⟩⟩).position).x) h1
    simp [rCB, writeCorners, cornerVertices] at this
  push_cast at h2
  norm_num at h2

/-- C5 (amended): after every sequence of `create_quad`/`create_block`/
`translate`/`set_position` calls from a fresh batch, the vertex array length
is `4 ×` the live quad count, the index array length is `6 ×` it, the
export reports `6 ×` it, and every live slot `j`'s index sextet is
`{0,1,2,2,1,3}` offset by `4j`; moreover, whenever the sequence contains no
`create_block`, every live slot's 4 vertices form exactly the
`cell_size × cell_size` square at that quad's stored position with the
fixed corner ordering (the rectangle claim fails for blocks once they are
translated, since mutation always rewrites with the unit extent). -/
theorem c5_geometry_invariant (s : ℚ) (ops : List Op) (r : Renderer)
    (h : execOps (Renderer.new s) ops = some r) :
    r.vertices.length = 4 * r.quads.length
    ∧ r.indices.length = 6 * r.quads.length
    ∧ r.collect_buffers = some (r.vertices, r.indices, 6 * r.quads.length)
    ∧ (∀ j, j < r.quads.length →
        (r.indices.drop (6 * j)).take 6 = sextet j)
    ∧ ((∀ op ∈ ops, op.isBlockCreate = false) →
        ∀ j q, r.quads.get? j = some q →
          (r.vertices.drop (4 * j)).take 4
            = cornerVertices q.pos r.quad_size r.quad_size q.color) := by
  obtain ⟨hcur, hcap, hvlen, hidx⟩ := execOps_wf (new_wf s) h
  refine ⟨hvlen, ?_, ?_, ?_, ?_⟩
  · rw [hidx, length_flatMap_const sextet 6 (fun x => by simp [sextet]),
      List.length_range]
  · unfold Renderer.collect_buffers
    rw [if_pos (by rw [hcur]; omega), hcur]
  · intro j hj
    rw [hidx]
    exact flatMap_seg sextet 6 (fun x => by simp [sextet]) _ j j
      (List.get?_range hj)
  · intro hnb j q hq
    have hgr : GeomRep r :=
      execOps_geom (by simp [GeomRep, Renderer.new]) hnb h
    rw [GeomRep] at hgr
    rw [hgr]
    exact flatMap_seg (cornersOf r.quad_size) 4
      (fun x => by simp [cornersOf, cornerVertices]) _ j q hq

/-- Witness for C5 (amended): creating a unit quad at `(200, 230)` and
translating it by `(5, 0)` yields a batch whose lengths, export, index
sextet and vertex square all match. -/
theorem c5_geometry_invariant_witness :
    execOps (Renderer.new 50)
        [Op.createQuad ⟨200, 230⟩ ⟨0, 1, 0⟩, Op.translate 0 ⟨5, 0⟩]
      = some rW
    ∧ rW.vertices.length = 4 * rW.quads.length
    ∧ rW.indices.length = 6 * rW.quads.length
    ∧ rW.collect_buffers = some (rW.vertices, rW.indices, 6 * rW.quads.length)
    ∧ (rW.indices.drop (6 * 0)).take 6 = sextet 0
    ∧ (rW.vertices.drop (4 * 0)).take 4
        = cornerVertices ⟨200 + 5, 230 + 0⟩ 50 50 ⟨0, 1, 0⟩ := by
  have hexec : execOps (Renderer.new 50)
      [Op.createQuad ⟨200, 230⟩ ⟨0, 1, 0⟩, Op.translate 0 ⟨5, 0⟩]
      = some rW := rfl
  have h := c5_geometry_invariant 50
    [Op.createQuad ⟨200, 230⟩ ⟨0, 1, 0⟩, Op.translate 0 ⟨5, 0⟩] rW hexec
  have hnb : ∀ op ∈ [Op.createQuad ⟨200, 230⟩ ⟨0, 1, 0⟩,
      Op.translate 0 ⟨5, 0⟩], op.isBlockCreate = false := by
    intro op hop
    rcases List.mem_cons.mp hop with rfl | hop
    · rfl
    rcases List.mem_cons.mp hop with rfl | hop
    · rfl
    · exact absurd hop (List.not_mem_nil op)
  refine ⟨hexec, h.1, h.2.1, h.2.2.1, h.2.2.2.1 0 (by simp [rW]), ?_⟩
  exact h.2.2.2.2 hnb 0 ⟨⟨200 + 5, 230 + 0⟩, ⟨0, 1, 0⟩⟩ rfl

lemma update_sync (s : GameState) (d : Point2) (p' : Point2)
    (hinv : StateInv s)
    (hx : p'.x = s.player.pos.x + d.x)
    (hy : p'.y = s.player.pos.y + d.y) :
    ∃ r', s.renderer.update_quad_data s.player.index d = some r'
      ∧ StateInv { s with
          renderer := r', player := { s.player with pos := p' } }
      ∧ ∃ c, r'.quads.get? s.player.index = some ⟨p', c⟩
        ∧ (r'.vertices.drop (4 * s.player.index)).take 4
            = cornerVertices p' r'.quad_size r'.quad_size c := by
  obtain ⟨hi, hv, hpos⟩ := hinv
  cases hq : s.renderer.quads.get? s.player.index with
  | none => rw [hq] at hpos; exact absurd hpos (by simp)
  | some q =>
    rw [hq] at hpos
    have hqp : q.pos = s.player.pos := by
      simpa using hpos
    have hb : 4 * s.player.index + 3 < s.renderer.vertices.length := by
      rw [hv]; omega
    have hx' : p'.x = q.pos.x + d.x := by rw [hqp]; exact hx
    have hy' : p'.y = q.pos.y + d.y := by rw [hqp]; exact hy
    have hp2 : (⟨q.pos.x + d.x, q.pos.y + d.y⟩ : Point2) = p' := by
      cases p'
      simp only [Point2.mk.injEq]
      exact ⟨hx'.symm, hy'.symm⟩
    have hupd : s.renderer.update_quad_data s.player.index d
        = some { s.renderer with
            vertices := writeCorners s.renderer.vertices s.player.index p'
              s.renderer.quad_size q.color,
            quads := s.renderer.quads.set s.player.index ⟨p', q.color⟩ } := by
      unfold Renderer.update_quad_data
      rw [hq]
      dsimp only
      rw [if_pos hb, hp2]
    refine ⟨_, hupd, ⟨?_, ?_, ?_⟩, q.color, ?_, ?_⟩
    · show s.player.index < (s.renderer.quads.set _ _).length
      rw [List.length_set]
      exact hi
    · show (writeCorners _ _ _ _ _).length
        = 4 * (s.renderer.quads.set _ _).length
      rw [writeCorners_length, List.length_set]
      exact hv
    · show ((s.renderer.quads.set s.player.index
          ⟨p', q.color⟩).get? s.player.index).map QuadInfo.pos = some p'
      rw [List.get?_set_eq_of_lt _ hi]
      rfl
    · exact List.get?_set_eq_of_lt _ hi
    · exact writeCorners_seg_self s.renderer.vertices s.player.index hb p'
        s.renderer.quad_size q.color

lemma change_sync (s : GameState) (p' : Point2) (hinv : StateInv s) :
    ∃ r', s.renderer.change_quad_data s.player.index p' = some r'
      ∧ StateInv { s with
          renderer := r', player := { s.player with pos := p' } }
      ∧ ∃ c, r'.quads.get? s.player.index = some ⟨p', c⟩
        ∧ (r'.vertices.drop (4 * s.player.index)).take 4
            = cornerVertices p' r'.quad_size r'.quad_size c := by
  obtain ⟨hi, hv, hpos⟩ := hinv
  cases hq : s.renderer.quads.get? s.player.index with
  | none => rw [hq] at hpos; exact absurd hpos (by simp)
  | some q =>
    have hb : 4 * s.player.index + 3 < s.renderer.vertices.length := by
      rw [hv]; omega
    have hupd : s.renderer.change_quad_data s.player.index p'
        = some { s.renderer with
            vertices := writeCorners s.renderer.vertices s.player.index p'
              s.renderer.quad_size q.color,
            quads := s.renderer.quads.set s.player.index ⟨p', q.color⟩ } := by
      unfold Renderer.change_quad_data
      rw [hq]
      dsimp only
      rw [if_pos hb]
    refine ⟨_, hupd, ⟨?_, ?_, ?_⟩, q.color, ?_, ?_⟩
    · show s.player.index < (s.renderer.quads.set _ _).length
      rw [List.length_set]
      exact hi
    · show (writeCorners _ _ _ _ _).length
        = 4 * (s.renderer.quads.set _ _).length
      rw [writeCorners_length, List.length_set]
      exact hv
    · show ((s.renderer.quads.set s.player.index
          ⟨p', q.color⟩).get? s.player.index).map QuadInfo.pos = some p'
      rw [List.get?_set_eq_of_lt _ hi]
      rfl
    · exact List.get?_set_eq_of_lt _ hi
    · exact writeCorners_seg_self s.renderer.vertices s.player.index hb p'
        s.renderer.quad_size q.color

lemma opt_move (s : GameState) (b : Bool) (d : Point2) (p' : Point2)
    (hinv : StateInv s)
    (hx : p'.x = s.player.pos.x + d.x)
    (hy : p'.y = s.player.pos.y + d.y) :
    ∃ s1, (if b then
        (s.renderer.update_quad_data s.player.index d).map
          (fun r =>
            { s with
              renderer := r,
              player := { s.player with pos := p' } })
      else some s) = some s1
      ∧ StateInv s1 := by
  cases b with
  | false => exact ⟨s, by simp, hinv⟩
  | true =>
    obtain ⟨r', hupd, hinv', -⟩ := update_sync s d p' hinv hx hy
    refine ⟨_, ?_, hinv'⟩
    rw [if_pos rfl, hupd, Option.map_some']

/-- C10: a tick of `State::update` keeps the scene model and the batch in
agreement: from any synchronised state (player slot live, invariant vertex
length, batch record storing the player's position), the tick succeeds and
afterwards the batch record at the player's slot again stores exactly the
player's authoritative position, and the player's 4 vertices form exactly
the `cell_size × cell_size` square at that position — in every combination
of input flags and resolver outcome. -/
theorem c10_scene_batch_sync (s : GameState) (hinv : StateInv s) :
    ∃ s', s.update = some s'
      ∧ StateInv s'
      ∧ ∃ c, s'.renderer.quads.get? s'.player.index
            = some ⟨s'.player.pos, c⟩
        ∧ (s'.renderer.vertices.drop (4 * s'.player.index)).take 4
            = cornerVertices s'.player.pos s'.renderer.quad_size
                s'.renderer.quad_size c := by
  unfold GameState.update
  obtain ⟨s1, he1, hinv1⟩ := opt_move s s.player.is_right_pressed
    ⟨s.player.speed, 0⟩ ⟨s.player.pos.x + s.player.speed, s.player.pos.y⟩
    hinv (by simp) (by simp)
  rw [he1, Option.some_bind]
  obtain ⟨s2, he2, hinv2⟩ := opt_move s1 s1.player.is_left_pressed
    ⟨-s1.player.speed, 0⟩
    ⟨s1.player.pos.x - s1.player.speed, s1.player.pos.y⟩ hinv1
    (by show s1.player.pos.x - s1.player.speed
          = s1.player.pos.x + -s1.player.speed
        ring)
    (by simp)
  rw [he2, Option.some_bind]
  dsimp only
  cases hc : check_player_gravity_collission
      ⟨s2.player.pos.x, s2.player.pos.y - s2.player.gravity⟩
      s2.block.pos s2.quad_size s2.block_length with
  | some np =>
    dsimp only
    obtain ⟨r', he3, hinv3, c, hrec, hseg⟩ := change_sync s2 np hinv2
    rw [he3, Option.map_some']
    exact ⟨_, rfl, hinv3, c, hrec, hseg⟩
  | none =>
    dsimp only
    obtain ⟨r', he3, hinv3, c, hrec, hseg⟩ := update_sync s2
      ⟨0, -s2.player.gravity⟩
      ⟨s2.player.pos.x, s2.player.pos.y - s2.player.gravity⟩ hinv2
      (by show s2.player.pos.x = s2.player.pos.x + 0
          ring)
      (by show s2.player.pos.y - s2.player.gravity
            = s2.player.pos.y + -s2.player.gravity
          ring)
    rw [he3, Option.map_some']
    exact ⟨_, rfl, hinv3, c, hrec, hseg⟩

/-- Witness for C10: the concrete scene state `gsW` (no keys held, player
at the origin, in sync with its batch) satisfies the invariant, and a tick
keeps the scene and the batch in agreement. -/
theorem c10_scene_batch_sync_witness :
    StateInv gsW
    ∧ ∃ s', gsW.update = some s'
      ∧ StateInv s'
      ∧ ∃ c, s'.renderer.quads.get? s'.player.index
            = some ⟨s'.player.pos, c⟩
        ∧ (s'.renderer.vertices.drop (4 * s'.player.index)).take 4
            = cornerVertices s'.player.pos s'.renderer.quad_size
                s'.renderer.quad_size c := by
  have hinv : StateInv gsW := by
    refine ⟨by norm_num [gsW, rPB], ?_, ?_⟩
    · simp [gsW, rPB, cornerVertices]
    · simp [gsW, rPB]
  exact ⟨hinv, c10_scene_batch_sync gsW hinv⟩

end Shooter


